import Mathlib

/-!
Verification development for the `@redis-kit/lock` package (Redlock distributed
lock). The definitions below are a shallow embedding of the TypeScript source
in `packages/lock/src/lock.ts` (the `Redlock` manager and `RedlockInstance`
handle classes) and of its Lua script reply conventions. External effects
(Redis replies, the token RNG, wall-clock readings) are passed in as explicit
oracle arguments; JS `number` values carrying the drift factor are modelled as
rationals, millisecond quantities as integers.
-/

/-- JS `Math.round`: round half toward positive infinity, `⌊x + 0.5⌋`. -/
def jsRound (x : ℚ) : Int := ⌊x + 1/2⌋

/-- `key.trim() === ''` for a JS string: true iff every character is
whitespace (trimming both ends leaves the empty string). Stated over `.data`
so that it evaluates by kernel reduction. -/
def isBlank (s : String) : Bool := s.data.all (fun c => c.isWhitespace)

/-- `validateKey` (lock.ts:924): accepts iff the key is a non-empty,
non-whitespace-only string (`!key || key.trim() === ''` rejects). -/
def validKeyB (key : String) : Bool := !(key == "" || isBlank key)

/-- `validateToken` (lock.ts:930): same predicate as `validateKey`. -/
def validTokenB (token : String) : Bool := !(token == "" || isBlank token)

/-- `validateTtl` (lock.ts:936): accepts iff `Number.isInteger(ttlMs) && ttlMs > 0`;
the TTL is carried as `Int`, so only positivity remains. -/
def validTtlB (ttlMs : Int) : Bool := decide (0 < ttlMs)

/-- Error kinds raised by the manager/handle (errors.ts). -/
inductive Thrown where
  | invalidParameter (param : String) (expected : String)
  | genericError (msg : String)
  deriving DecidableEq, Repr

/-- Outcome of one per-server script invocation: an integer Redis reply, or a
raised transport/command error (the `catch` arm of the wrapper). -/
inductive ScriptOutcome where
  | reply (n : Int)
  | err
  deriving DecidableEq, Repr

/-- `acquireOnInstance` (lock.ts:772-788): `try { return reply === 1 } catch { return false }`. -/
def acquireOnInstanceResult : ScriptOutcome → Bool
  | .reply n => n == 1
  | .err => false

/-- `releaseOnInstance` (lock.ts:790-805): `try { return reply === 1 } catch { return false }`. -/
def releaseOnInstanceResult : ScriptOutcome → Bool
  | .reply n => n == 1
  | .err => false

/-- `extendOnInstance` (lock.ts:807-823): `try { return reply === 1 } catch { return false }`. -/
def extendOnInstanceResult : ScriptOutcome → Bool
  | .reply n => n == 1
  | .err => false

/-- A constructed `Redlock` manager as used by the algorithm: the number of
clients, the drift factor, and the retry configuration (lock.ts:577-618).
`retryDelayMs`/`retryJitterMs` only shape the sleep between attempts and are
irrelevant to the state observed here. -/
structure Redlock where
  nClients : Nat
  driftFactor : ℚ
  maxRetryAttempts : Nat

/-- `this.quorum = Math.floor(redisClients.length / 2) + 1` (lock.ts:603). -/
def Redlock.quorum (r : Redlock) : Nat := r.nClients / 2 + 1

/-- `calculateEffectiveValidity` (lock.ts:856-859):
`ttlMs - elapsedMs - Math.round(driftFactor * ttlMs)`. -/
def Redlock.calculateEffectiveValidity (r : Redlock) (ttlMs elapsedMs : Int) : Int :=
  ttlMs - elapsedMs - jsRound (r.driftFactor * (ttlMs : ℚ))

/-- `hasMajorityConsensus` (lock.ts:865-867): `successCount >= quorum`. -/
def Redlock.hasMajorityConsensus (r : Redlock) (successCount : Nat) : Bool :=
  decide (r.quorum ≤ successCount)

/-- `isTimingValid` (lock.ts:869-879): `effectiveValidity > 1`. -/
def Redlock.isTimingValid (r : Redlock) (ttlMs elapsedTime : Int) : Bool :=
  decide (1 < r.calculateEffectiveValidity ttlMs elapsedTime)

/-- Input record of `evaluateAcquisitionAttempt`. -/
structure AttemptInput where
  successCount : Nat
  ttlMs : Int
  elapsedTime : Int

/-- Result union of `evaluateAcquisitionAttempt`. -/
inductive AcquisitionEvaluation where
  | success (effectiveValidityMs : Int)
  | failure (failureReason : String)
  deriving DecidableEq, Repr

/-- Whether the evaluation is the `success: true` branch. -/
def AcquisitionEvaluation.isSuccess : AcquisitionEvaluation → Bool
  | .success _ => true
  | .failure _ => false

/-- The reason string of the consensus failure branch (lock.ts:906). -/
def insufficientConsensusMsg (successCount quorum : Nat) : String :=
  "Insufficient consensus: " ++ toString successCount ++ "/" ++ toString quorum ++ " required"

/-- The reason string of the timing failure branch (lock.ts:913). -/
def timingViolatedMsg : String :=
  "Timing constraint violated: effective validity too low"

/-- `evaluateAcquisitionAttempt` (lock.ts:890-922): reject without quorum,
then reject on invalid timing, else accept with the effective validity. -/
def Redlock.evaluateAcquisitionAttempt (r : Redlock) (a : AttemptInput) :
    AcquisitionEvaluation :=
  if !(r.hasMajorityConsensus a.successCount) then
    .failure (insufficientConsensusMsg a.successCount r.quorum)
  else if !(r.isTimingValid a.ttlMs a.elapsedTime) then
    .failure timingViolatedMsg
  else
    .success (r.calculateEffectiveValidity a.ttlMs a.elapsedTime)

/-- One per-server script dispatch observed during the manager's fan-outs.
Each `client.eval` call carries the KEYS vector, the token and (for ACQUIRE)
the TTL argument (lock.ts:779-781, 796-799). -/
inductive Ev where
  | acq (client : Nat) (keys : List String) (token : String) (ttlMs : Int)
  | rel (client : Nat) (keys : List String) (token : String)
  deriving DecidableEq, Repr

/-- The token argument of a dispatch. -/
def Ev.token : Ev → String
  | .acq _ _ t _ => t
  | .rel _ _ t => t

/-- The KEYS vector of a dispatch. -/
def Ev.keys : Ev → List String
  | .acq _ ks _ _ => ks
  | .rel _ ks _ => ks

/-- Whether the dispatch is a RELEASE script invocation. -/
def Ev.isRel : Ev → Bool
  | .acq _ _ _ _ => false
  | .rel _ _ _ => true

/-- The ACQUIRE fan-out of one attempt: one dispatch per client (lock.ts:640-644). -/
def acqEvents (n : Nat) (keys : List String) (token : String) (ttlMs : Int) : List Ev :=
  (List.range n).map (fun c => .acq c keys token ttlMs)

/-- A RELEASE fan-out: one dispatch per client (lock.ts:664-668, 736-738). -/
def relEvents (n : Nat) (keys : List String) (token : String) : List Ev :=
  (List.range n).map (fun c => .rel c keys token)

/-- `successCount` of attempt `i` (lock.ts:646-648): the number of clients
whose ACQUIRE wrapper returned `true`, with per-server outcomes supplied by the
oracle `acqOut` (attempt index, client index). -/
def Redlock.successCountAt (r : Redlock) (acqOut : Nat → Nat → ScriptOutcome) (i : Nat) : Nat :=
  ((List.range r.nClients).filter (fun c => acquireOnInstanceResult (acqOut i c))).length

/-- The record of one attempt of the retry loop: its index, the token
generated for it, and the dispatches it issued. -/
structure AttemptRec where
  index : Nat
  token : String
  events : List Ev
  deriving DecidableEq, Repr

/-- The retry loop body of `acquire` (lock.ts:635-675), with externals as
oracles: `gen i` is the token `generateToken()` returns on attempt `i`,
`acqOut i c` the outcome of attempt `i`'s ACQUIRE on client `c`, `elapsed i`
the measured `Date.now() - startTime`. On acceptance it returns the granted
token and effective validity; on rejection it dispatches the cleanup RELEASE
fan-out and recurses. `fuel` counts the remaining iterations
(`maxRetryAttempts + 1` at the top call). -/
def Redlock.acquireLoop (r : Redlock) (gen : Nat → String)
    (acqOut : Nat → Nat → ScriptOutcome) (elapsed : Nat → Int)
    (keys : List String) (ttlMs : Int) :
    Nat → Nat → Option (String × Int) × List AttemptRec
  | _, 0 => (none, [])
  | i, fuel + 1 =>
    let token := gen i
    match r.evaluateAcquisitionAttempt ⟨r.successCountAt acqOut i, ttlMs, elapsed i⟩ with
    | .success v =>
        (some (token, v), [⟨i, token, acqEvents r.nClients keys token ttlMs⟩])
    | .failure _ =>
        let rest := r.acquireLoop gen acqOut elapsed keys ttlMs (i + 1) fuel
        (rest.1,
          ⟨i, token, acqEvents r.nClients keys token ttlMs ++ relEvents r.nClients keys token⟩
            :: rest.2)

/-- `acquire` (lock.ts:631-678): validate the key and TTL, then run the retry
loop for attempts `0 .. maxRetryAttempts`; the per-server `eval` calls pass
`keys: [key]`. Returns the granted token and effective validity, or `none`
after exhausting retries. -/
def Redlock.acquire (r : Redlock) (gen : Nat → String)
    (acqOut : Nat → Nat → ScriptOutcome) (elapsed : Nat → Int)
    (key : String) (ttlMs : Int) :
    Except Thrown (Option (String × Int) × List AttemptRec) :=
  if !validKeyB key then .error (.invalidParameter "key" "non-empty string")
  else if !validTtlB ttlMs then .error (.invalidParameter "ttlMs" "positive integer")
  else .ok (r.acquireLoop gen acqOut elapsed [key] ttlMs 0 (r.maxRetryAttempts + 1))

/-- Manager-level `release` (lock.ts:732-745): validate, fan RELEASE out to
all clients (outcomes supplied by `out`), and return `successCount > 0`. -/
def Redlock.release (r : Redlock) (out : Nat → ScriptOutcome)
    (key token : String) : Except Thrown (Bool × List Ev) :=
  if !validKeyB key then .error (.invalidParameter "key" "non-empty string")
  else if !validTokenB token then .error (.invalidParameter "token" "non-empty string")
  else
    let successCount :=
      ((List.range r.nClients).filter (fun c => releaseOnInstanceResult (out c))).length
    .ok (decide (0 < successCount), relEvents r.nClients [key] token)

/-- A Redis client as far as the `Redlock` constructor can observe it: the
constructor never reads any field, but the stub carries the readiness flag so
that independence from it is expressible. -/
structure ClientStub where
  isReady : Bool
  deriving DecidableEq, Repr

/-- The options bag of the `Redlock` constructor (types.ts:4-16); `none`
means the option was not supplied. -/
structure RedlockOptions where
  driftFactor : Option ℚ := none
  retryDelayMs : Option ℚ := none
  retryJitterMs : Option ℚ := none
  maxRetryAttempts : Option ℚ := none

/-- `validateOptions` (lock.ts:825-854): reject an explicitly supplied
`driftFactor` outside `[0, 0.1]`, a negative `retryDelayMs`, or a negative
`maxRetryAttempts`; `retryJitterMs` is never checked. -/
def validateOptionsE (o : RedlockOptions) : Except Thrown Unit :=
  match o.driftFactor with
  | some d =>
    if d < 0 ∨ d > 1/10 then .error (.invalidParameter "driftFactor" "number between 0 and 0.1")
    else match o.retryDelayMs with
      | some x =>
        if x < 0 then .error (.invalidParameter "retryDelayMs" "non-negative number")
        else match o.maxRetryAttempts with
          | some m =>
            if m < 0 then .error (.invalidParameter "maxRetryAttempts" "non-negative number")
            else .ok ()
          | none => .ok ()
      | none => match o.maxRetryAttempts with
          | some m =>
            if m < 0 then .error (.invalidParameter "maxRetryAttempts" "non-negative number")
            else .ok ()
          | none => .ok ()
  | none => match o.retryDelayMs with
      | some x =>
        if x < 0 then .error (.invalidParameter "retryDelayMs" "non-negative number")
        else match o.maxRetryAttempts with
          | some m =>
            if m < 0 then .error (.invalidParameter "maxRetryAttempts" "non-negative number")
            else .ok ()
          | none => .ok ()
      | none => match o.maxRetryAttempts with
          | some m =>
            if m < 0 then .error (.invalidParameter "maxRetryAttempts" "non-negative number")
            else .ok ()
          | none => .ok ()

/-- The fields the constructor stores (lock.ts:600-611). -/
structure ConstructedRedlock where
  clients : List ClientStub
  quorum : Nat
  driftFactor : ℚ
  retryDelayMs : ℚ
  retryJitterMs : ℚ
  maxRetryAttempts : ℚ

/-- The `Redlock` constructor (lock.ts:590-618): reject a non-non-empty
client array, validate the options, then store clients, quorum
`⌊N/2⌋ + 1`, and the option values with their defaults. It never inspects an
individual client. -/
def Redlock.construct (clients : List ClientStub) (o : RedlockOptions) :
    Except Thrown ConstructedRedlock :=
  if clients.isEmpty then
    .error (.invalidParameter "redisClients" "non-empty array of Redis clients")
  else
    match validateOptionsE o with
    | .error e => .error e
    | .ok _ =>
      .ok { clients := clients
            quorum := clients.length / 2 + 1
            driftFactor := o.driftFactor.getD (1/100)
            retryDelayMs := o.retryDelayMs.getD 200
            retryJitterMs := o.retryJitterMs.getD 100
            maxRetryAttempts := o.maxRetryAttempts.getD 3 }

/-- Lexicographic comparison of character lists by code point, the order in
which the multi-key variant sorts its canonicalized key vector. -/
def charListLe : List Char → List Char → Bool
  | [], _ => true
  | _ :: _, [] => false
  | a :: as, b :: bs =>
    if a.toNat < b.toNat then true
    else if b.toNat < a.toNat then false
    else charListLe as bs

/-- Lexicographic ascending order on keys. -/
def keyLe (a b : String) : Bool := charListLe a.data b.data

/-- Modelled from the spec: the deduplication pass of the multi-key
`acquire`, whose source (the multi-resource `redlock.ts`) is not under `src/`
(only its unit test is). Walks the input key list keeping the first occurrence
of each key and collecting the removed duplicate occurrences, which the
source reports in a `console.warn` (spec section 3 and section 4.4; the unit
test expects the warning payload `['user:123']` for input
`['user:123', 'order:456', 'user:123']`). -/
def dedupKeys : List String → List String → List String × List String
  | _, [] => ([], [])
  | seen, k :: ks =>
    if seen.contains k then
      let rest := dedupKeys seen ks
      (rest.1, k :: rest.2)
    else
      let rest := dedupKeys (k :: seen) ks
      (k :: rest.1, rest.2)

/-- Modelled from the spec: canonicalization of a multi-key resource list —
duplicates removed (second component: the removed occurrences, surfaced as a
warning), remainder sorted in lexicographic ascending order (spec section 3). -/
def canonicalizeKeys (l : List String) : List String × List String :=
  let p := dedupKeys [] l
  (List.insertionSort (fun a b => keyLe a b = true) p.1, p.2)

/-- The lock handle data a successful multi-key acquisition exposes. -/
structure RedlockInstanceData where
  resourceKeys : List String
  token : String
  effectiveValidityMs : Int
  deriving DecidableEq, Repr

/-- Modelled from the spec: the multi-key `acquire` (spec section 4.4) —
validate the key vector, canonicalize it, and run the same retry loop with
the entire canonicalized vector as KEYS of every per-server script
invocation. Returns the handle data (or `none`), the attempt records, and the
removed-duplicates warning payload. -/
def Redlock.acquireMulti (r : Redlock) (gen : Nat → String)
    (acqOut : Nat → Nat → ScriptOutcome) (elapsed : Nat → Int)
    (keys : List String) (ttlMs : Int) :
    Except Thrown (Option RedlockInstanceData × List AttemptRec × List String) :=
  if keys.isEmpty then .error (.invalidParameter "keys" "non-empty array of strings")
  else if keys.any (fun k => !validKeyB k) then
    .error (.invalidParameter "keys[i]" "non-empty string")
  else if !validTtlB ttlMs then .error (.invalidParameter "ttlMs" "positive integer")
  else
    let c := canonicalizeKeys keys
    let res := r.acquireLoop gen acqOut elapsed c.1 ttlMs 0 (r.maxRetryAttempts + 1)
    .ok (res.1.map (fun t => ⟨c.1, t.1, t.2⟩), res.2, c.2)

/-- The mutable state of a `RedlockInstance` handle (lock.ts:331-345),
together with the host runtime's set of armed (not yet fired, not cancelled)
renewal timeouts. `extensionTimer` is the handle's single timer field;
`pendingTimers` are the timeout ids armed via `setTimeout` and still pending
in the runtime; `extCalls` counts manager-extend invocations (to index the
`ext` oracle); `releaseFanouts` counts manager-release fan-outs. -/
structure InstState where
  isReleased : Bool
  autoExtensionEnabled : Bool
  autoExtensionThresholdMs : Int
  expiresAtMs : Int
  ttlMs : Int
  pendingTimers : List Nat
  extensionTimer : Option Nat
  nextTimerId : Nat
  extCalls : Nat
  releaseFanouts : Nat
  deriving DecidableEq, Repr

/-- `stopAutoExtension` (lock.ts:471-477): clear the slot timer if present
(cancelling that timeout) and disable the flag. -/
def RedlockInstance.stopAutoExtension (s : InstState) : InstState :=
  let s' := match s.extensionTimer with
    | some id => { s with pendingTimers := s.pendingTimers.erase id, extensionTimer := none }
    | none => s
  { s' with autoExtensionEnabled := false }

/-- `RedlockInstance.release` (lock.ts:388-403): if already released return
`true` without touching the servers; otherwise set the flag, stop
auto-extension, and fan the manager release out, swallowing its error
(`mgrResult = none`) into a `false` result. -/
def RedlockInstance.release (mgrResult : Option Bool) (s : InstState) : Bool × InstState :=
  if s.isReleased then (true, s)
  else
    let s' := RedlockInstance.stopAutoExtension { s with isReleased := true }
    match mgrResult with
    | some b => (b, { s' with releaseFanouts := s'.releaseFanouts + 1 })
    | none => (false, { s' with releaseFanouts := s'.releaseFanouts + 1 })

/-- `performExtension` (lock.ts:501-528). `ext n` is the outcome of the
`n`-th manager-extend call (`none` = it threw); `now` the current clock
reading; `fuel` bounds the perform/schedule recursion depth (each real round
trips through the network, so any finite prefix is captured by some fuel).
On a successful extend the expiration advances to `now + ttlMs`
(lock.ts:431) and the next renewal is scheduled: the tail of the success
branch is the body of `scheduleExtension` (lock.ts:482-496) inlined so that
the recursion is structural in `fuel`; `RedlockInstance.scheduleExtension`
below restates it, and `performExtension_succ_eq` proves the two agree.
Note that scheduling overwrites `extensionTimer` without cancelling a
previously armed timeout. -/
def RedlockInstance.performExtension (ext : Nat → Option Bool) (now : Int) :
    Nat → InstState → InstState
  | fuel, s =>
    if !s.autoExtensionEnabled || s.isReleased then s
    else
      let s' := { s with extensionTimer := none }
      match ext s'.extCalls with
      | some true =>
          let s2 := { s' with extCalls := s'.extCalls + 1, expiresAtMs := now + s'.ttlMs }
          if !s2.autoExtensionEnabled || s2.isReleased then s2
          else if s2.expiresAtMs - now - s2.autoExtensionThresholdMs ≤ 0 then
            match fuel with
            | 0 => s2
            | fuel' + 1 => RedlockInstance.performExtension ext now fuel' s2
          else
            { s2 with extensionTimer := some s2.nextTimerId,
                      pendingTimers := s2.pendingTimers ++ [s2.nextTimerId],
                      nextTimerId := s2.nextTimerId + 1 }
      | some false => { s' with extCalls := s'.extCalls + 1, autoExtensionEnabled := false }
      | none => { s' with extCalls := s'.extCalls + 1, autoExtensionEnabled := false }

/-- `scheduleExtension` (lock.ts:482-496): nothing to do when auto-extension
is off or the handle released; when the time until the renewal point has
already passed, fire `performExtension` at once; otherwise arm a one-shot
timeout in the single slot — overwriting the slot WITHOUT cancelling a
previously armed timeout, which therefore stays pending. -/
def RedlockInstance.scheduleExtension (ext : Nat → Option Bool) (now : Int)
    (fuel : Nat) (s : InstState) : InstState :=
  if !s.autoExtensionEnabled || s.isReleased then s
  else if s.expiresAtMs - now - s.autoExtensionThresholdMs ≤ 0 then
    match fuel with
    | 0 => s
    | fuel' + 1 => RedlockInstance.performExtension ext now fuel' s
  else
    { s with extensionTimer := some s.nextTimerId,
             pendingTimers := s.pendingTimers ++ [s.nextTimerId],
             nextTimerId := s.nextTimerId + 1 }


/-- `startAutoExtension` (lock.ts:449-465): throw on a released handle or a
non-positive threshold, else record the threshold, enable the flag, and
schedule. -/
def RedlockInstance.startAutoExtension (ext : Nat → Option Bool) (now : Int) (fuel : Nat)
    (thresholdMs : Int) (s : InstState) : Except Thrown InstState :=
  if s.isReleased then .error (.genericError "Cannot start auto-extension on a released lock")
  else if thresholdMs ≤ 0 then .error (.invalidParameter "thresholdMs" "positive integer")
  else .ok (RedlockInstance.scheduleExtension ext now fuel
      { s with autoExtensionThresholdMs := thresholdMs, autoExtensionEnabled := true })

/-- The host runtime fires armed timeout `id`: it leaves the pending set and
its callback runs `performExtension` (lock.ts:493-495). A non-armed id never
fires. -/
def RedlockInstance.timerFire (ext : Nat → Option Bool) (now : Int) (fuel : Nat)
    (id : Nat) (s : InstState) : InstState :=
  if s.pendingTimers.contains id then
    RedlockInstance.performExtension ext now fuel { s with pendingTimers := s.pendingTimers.erase id }
  else s

/-- `RedlockInstance.extend` (lock.ts:412-441): throw on a released handle or
non-positive TTL; on manager success advance the expiration to `now + ttl`;
re-raise a manager error wrapped. -/
def RedlockInstance.extendManual (mgrResult : Option Bool) (newTtlMs : Option Int) (now : Int)
    (s : InstState) : Except Thrown (Bool × InstState) :=
  if s.isReleased then .error (.genericError "Cannot extend a released lock")
  else
    let ttlToUse := newTtlMs.getD s.ttlMs
    if ttlToUse ≤ 0 then .error (.invalidParameter "newTtlMs" "positive integer")
    else match mgrResult with
      | some true => .ok (true, { s with expiresAtMs := now + ttlToUse })
      | some false => .ok (false, s)
      | none => .error (.genericError "Failed to extend lock")

/-- Any single interaction with a handle (thrown calls leave the state as the
code left it at the throw point, which for every throwing path is unchanged). -/
inductive HandleOp where
  | releaseOp (mgrResult : Option Bool)
  | stopOp
  | startOp (thresholdMs : Int) (now : Int) (fuel : Nat)
  | fireOp (id : Nat) (now : Int) (fuel : Nat)
  | extendOp (mgrResult : Option Bool) (newTtlMs : Option Int) (now : Int)

/-- The state after one handle interaction. -/
def RedlockInstance.step (ext : Nat → Option Bool) : HandleOp → InstState → InstState
  | .releaseOp m, s => (RedlockInstance.release m s).2
  | .stopOp, s => RedlockInstance.stopAutoExtension s
  | .startOp th now fuel, s =>
      match RedlockInstance.startAutoExtension ext now fuel th s with
      | .ok s' => s'
      | .error _ => s
  | .fireOp id now fuel, s => RedlockInstance.timerFire ext now fuel id s
  | .extendOp m t now, s =>
      match RedlockInstance.extendManual m t now s with
      | .ok p => p.2
      | .error _ => s

/-- A heap of JS `Date` objects: allocated cells hold a millisecond value;
addresses below `size` are allocated. Mutation (`setTime`) writes an existing
cell in place, as JS `Date` mutators do. -/
structure DateHeap where
  size : Nat
  val : Nat → Int

/-- `new Date(ms)`: allocate a fresh cell holding `ms`. -/
def DateHeap.alloc (h : DateHeap) (v : Int) : Nat × DateHeap :=
  (h.size, ⟨h.size + 1, fun a => if a = h.size then v else h.val a⟩)

/-- `d.setTime(ms)` (or any other mutator) on the `Date` at address `a`. -/
def DateHeap.setTime (h : DateHeap) (a : Nat) (v : Int) : DateHeap :=
  ⟨h.size, fun b => if b = a then v else h.val b⟩

/-- The handle's reference to its stored `expiresAt` date object. -/
structure InstanceRef where
  expiresAtAddr : Nat

/-- `get expirationTime` (lock.ts:371-373): `new Date(this.expiresAt.getTime())`
— a freshly allocated copy of the stored instant. -/
def RedlockInstance.expirationTime (h : DateHeap) (inst : InstanceRef) : Nat × DateHeap :=
  h.alloc (h.val inst.expiresAtAddr)

/-- `get isExpired` (lock.ts:357-359): `Date.now() > this.expiresAt.getTime()`. -/
def RedlockInstance.isExpired (h : DateHeap) (inst : InstanceRef) (now : Int) : Bool :=
  decide (h.val inst.expiresAtAddr < now)

/-- `get isValid` (lock.ts:364-366): `!this.isReleased && !this.isExpired`. -/
def RedlockInstance.isValid (released : Bool) (h : DateHeap) (inst : InstanceRef)
    (now : Int) : Bool :=
  !released && !(RedlockInstance.isExpired h inst now)

/-- A concrete token generator used to instantiate oracle-parametrized
theorems: attempt `i` yields `i` repetitions of `'a'` (pairwise distinct). -/
def genReplicate (i : Nat) : String := String.mk (List.replicate i 'a')

/-- A representative freshly acquired handle state, as `acquire` constructs
it (lock.ts:659-660, 332-345): not released, auto-extension off with the
initial 1000 ms threshold, no timer armed. -/
def inst0 : InstState :=
  { isReleased := false
    autoExtensionEnabled := false
    autoExtensionThresholdMs := 1000
    expiresAtMs := 10000
    ttlMs := 5000
    pendingTimers := []
    extensionTimer := none
    nextTimerId := 0
    extCalls := 0
    releaseFanouts := 0 }

/-- Whether a constructor call returned normally (did not throw). -/
def constructOk : Except Thrown ConstructedRedlock → Bool
  | .ok _ => true
  | .error _ => false

/-- C1: the acquisition evaluator, given `successCount`, `ttlMs` and the
elapsed time, accepts iff `successCount ≥ quorum` (with
`quorum = ⌊N/2⌋ + 1` for `N` servers) and
`ttlMs - elapsedMs - round(driftFactor * ttlMs) > 1`; on acceptance its
`effectiveValidityMs` is exactly that difference, and on rejection it reports
the insufficient-consensus reason when the quorum test fails, otherwise the
timing-constraint reason. -/
theorem c1_evaluator_decision (r : Redlock) (a : AttemptInput) :
    ((r.evaluateAcquisitionAttempt a).isSuccess = true ↔
      (r.quorum ≤ a.successCount ∧
        1 < a.ttlMs - a.elapsedTime - jsRound (r.driftFactor * (a.ttlMs : ℚ))))
    ∧ (∀ v, r.evaluateAcquisitionAttempt a = .success v →
        v = a.ttlMs - a.elapsedTime - jsRound (r.driftFactor * (a.ttlMs : ℚ)))
    ∧ (a.successCount < r.quorum →
        r.evaluateAcquisitionAttempt a =
          .failure (insufficientConsensusMsg a.successCount r.quorum))
    ∧ (r.quorum ≤ a.successCount →
        a.ttlMs - a.elapsedTime - jsRound (r.driftFactor * (a.ttlMs : ℚ)) ≤ 1 →
        r.evaluateAcquisitionAttempt a = .failure timingViolatedMsg)
    ∧ r.quorum = r.nClients / 2 + 1 := by
  unfold Redlock.evaluateAcquisitionAttempt Redlock.hasMajorityConsensus
    Redlock.isTimingValid Redlock.calculateEffectiveValidity Redlock.quorum
  by_cases hq : r.nClients / 2 + 1 ≤ a.successCount <;>
    by_cases ht : 1 < a.ttlMs - a.elapsedTime - jsRound (r.driftFactor * (a.ttlMs : ℚ)) <;>
      simp [hq, ht, AcquisitionEvaluation.isSuccess] <;> omega

/-- Witness for C1: with 5 servers (quorum 3) a success count of 2 is
rejected with the insufficient-consensus reason. -/
theorem c1_evaluator_decision_witness :
    Redlock.evaluateAcquisitionAttempt ⟨5, 1/100, 3⟩ ⟨2, 10000, 1000⟩ =
      .failure (insufficientConsensusMsg 2 3) := by
  have h := (c1_evaluator_decision ⟨5, 1/100, 3⟩ ⟨2, 10000, 1000⟩).2.2.1 (by decide)
  simpa [Redlock.quorum] using h

/-- C8 counterexample: the per-server RELEASE wrapper translates an integer
reply with `reply === 1`, so the reply `2` — which satisfies `reply ≥ 1` —
is translated to `false`, contradicting the claim's `reply >= 1` reading. -/
theorem c8_release_reply_two : releaseOnInstanceResult (.reply 2) = false ∧ (1 : Int) ≤ 2 :=
  ⟨by decide, by decide⟩

/-- C8 as amended: every per-server wrapper returns `false` on an exception,
and all three wrappers — ACQUIRE, EXTEND, and also RELEASE — translate an
integer reply as `reply == 1`; on the single-key RELEASE script's possible
replies (0 or 1) this coincides with `reply ≥ 1`. -/
theorem c8_wrapper_translation :
    (∀ o : ScriptOutcome, acquireOnInstanceResult o = true ↔ o = .reply 1)
    ∧ (∀ o : ScriptOutcome, extendOnInstanceResult o = true ↔ o = .reply 1)
    ∧ (∀ o : ScriptOutcome, releaseOnInstanceResult o = true ↔ o = .reply 1)
    ∧ acquireOnInstanceResult .err = false
    ∧ releaseOnInstanceResult .err = false
    ∧ extendOnInstanceResult .err = false
    ∧ (∀ n : Int, 0 ≤ n → n ≤ 1 →
        (releaseOnInstanceResult (.reply n) = true ↔ 1 ≤ n)) := by
  refine ⟨?_, ?_, ?_, rfl, rfl, rfl, ?_⟩
  · intro o; cases o <;> simp [acquireOnInstanceResult]
  · intro o; cases o <;> simp [extendOnInstanceResult]
  · intro o; cases o <;> simp [releaseOnInstanceResult]
  · intro n h0 h1
    simp only [releaseOnInstanceResult, beq_iff_eq]
    omega

/-- Witness for C8 (amended): on the reply `1` the release wrapper agrees
with the `reply ≥ 1` reading. -/
theorem c8_wrapper_translation_witness :
    (0 : Int) ≤ 1 ∧ (1 : Int) ≤ 1 ∧
      (releaseOnInstanceResult (.reply 1) = true ↔ (1 : Int) ≤ 1) :=
  ⟨by decide, by decide, c8_wrapper_translation.2.2.2.2.2.2 1 (by decide) (by decide)⟩

/-- C3: with valid parameters the manager-level release dispatches RELEASE to
all `N` servers and returns true iff at least one per-server release reported
success, whatever the per-server outcomes (including errors) are; only
parameter validation produces an error. -/
theorem c3_manager_release (r : Redlock) (out : Nat → ScriptOutcome) (key token : String) :
    (validKeyB key = true → validTokenB token = true →
      r.release out key token =
        .ok ((List.range r.nClients).any (fun c => releaseOnInstanceResult (out c)),
             relEvents r.nClients [key] token)
      ∧ (((List.range r.nClients).any (fun c => releaseOnInstanceResult (out c))) = true ↔
          ∃ c, c < r.nClients ∧ releaseOnInstanceResult (out c) = true))
    ∧ (validKeyB key = false →
        r.release out key token = .error (.invalidParameter "key" "non-empty string"))
    ∧ (validKeyB key = true → validTokenB token = false →
        r.release out key token = .error (.invalidParameter "token" "non-empty string"))
    ∧ relEvents r.nClients [key] token =
        (List.range r.nClients).map (fun c => .rel c [key] token) := by
  refine ⟨?_, ?_, ?_, rfl⟩
  · intro hk htk
    constructor
    · have hiff : 0 < ((List.range r.nClients).filter
          (fun c => releaseOnInstanceResult (out c))).length ↔
          ((List.range r.nClients).any (fun c => releaseOnInstanceResult (out c))) = true := by
        rw [List.length_pos_iff_ne_nil]
        constructor
        · intro hne
          rcases List.exists_mem_of_ne_nil _ hne with ⟨c, hc⟩
          have := List.of_mem_filter hc
          exact List.any_eq_true.mpr ⟨c, List.mem_of_mem_filter hc, this⟩
        · intro hany hnil
          rcases List.any_eq_true.mp hany with ⟨c, hc, hpc⟩
          have : c ∈ (List.range r.nClients).filter
              (fun c => releaseOnInstanceResult (out c)) := List.mem_filter.mpr ⟨hc, hpc⟩
          simp [hnil] at this
      have hb : (decide (0 < ((List.range r.nClients).filter
          (fun c => releaseOnInstanceResult (out c))).length)) =
          ((List.range r.nClients).any (fun c => releaseOnInstanceResult (out c))) := by
        rw [Bool.eq_iff_iff, decide_eq_true_eq]
        exact hiff
      simp only [Redlock.release, hk, htk, Bool.not_true, Bool.false_eq_true, if_false,
        ite_false, hb]
    · rw [List.any_eq_true]
      constructor
      · rintro ⟨c, hc, hpc⟩
        exact ⟨c, List.mem_range.mp hc, hpc⟩
      · rintro ⟨c, hc, hpc⟩
        exact ⟨c, List.mem_range.mpr hc, hpc⟩
  · intro hk
    simp [Redlock.release, hk]
  · intro hk htk
    simp [Redlock.release, hk, htk]

/-- Witness for C3: three servers where one errors, one replies 0 and one
replies 1 — release still returns `true` and dispatched to all three. -/
theorem c3_manager_release_witness :
    (Redlock.mk 3 0 3).release
        (fun c => if c == 2 then .reply 1 else if c == 1 then .reply 0 else .err) "k" "t" =
      .ok (true, relEvents 3 ["k"] "t") := by
  have h := ((c3_manager_release (Redlock.mk 3 0 3)
      (fun c => if c == 2 then .reply 1 else if c == 1 then .reply 0 else .err)
      "k" "t").1 (by decide) (by decide)).1
  exact h.trans (congrArg (fun b => Except.ok (b, relEvents 3 ["k"] "t")) (by decide))

/-- C9: the `Redlock` constructor throws iff the client list is empty or an
explicitly supplied option violates its constraint (`driftFactor` outside
`[0, 0.1]`, negative `retryDelayMs`, negative `maxRetryAttempts`); whatever
it throws is an `InvalidParameter`; acceptance depends only on the number of
clients, never on an individual client's state, and `retryJitterMs` is
unconstrained. -/
theorem c9_constructor_validation (clients : List ClientStub) (o : RedlockOptions) :
    ((∃ v, Redlock.construct clients o = .ok v) ↔
      (clients ≠ []
        ∧ (∀ d, o.driftFactor = some d → 0 ≤ d ∧ d ≤ 1/10)
        ∧ (∀ x, o.retryDelayMs = some x → 0 ≤ x)
        ∧ (∀ m, o.maxRetryAttempts = some m → 0 ≤ m)))
    ∧ (∀ e, Redlock.construct clients o = .error e →
        ∃ p expected, e = .invalidParameter p expected)
    ∧ (∀ clients' : List ClientStub, clients'.length = clients.length →
        ((∃ v, Redlock.construct clients' o = .ok v) ↔
          (∃ v, Redlock.construct clients o = .ok v))) := by
  have key : ∀ cs : List ClientStub,
      ((∃ v, Redlock.construct cs o = .ok v) ↔
        (cs ≠ []
          ∧ (∀ d, o.driftFactor = some d → 0 ≤ d ∧ d ≤ 1/10)
          ∧ (∀ x, o.retryDelayMs = some x → 0 ≤ x)
          ∧ (∀ m, o.maxRetryAttempts = some m → 0 ≤ m)))
      ∧ (∀ e, Redlock.construct cs o = .error e →
          ∃ p expected, e = .invalidParameter p expected) := by
    intro cs
    obtain ⟨df, rd, rj, mr⟩ := o
    unfold Redlock.construct validateOptionsE
    rcases hcs : cs.isEmpty with _ | _
    · cases df <;> cases rd <;> cases mr <;>
        simp_all [List.isEmpty_iff] <;> split_ifs <;>
          simp_all <;>
            first
              | tauto
              | (rename_i hd; intros; rcases hd with hd | hd <;> linarith)
    · simp_all [List.isEmpty_iff]
  refine ⟨(key clients).1, (key clients).2, ?_⟩
  intro clients' hlen
  have hiff2 : clients' = [] ↔ clients = [] := by
    rw [← List.length_eq_zero, ← List.length_eq_zero, hlen]
  rw [(key clients).1, (key clients').1]
  simp only [ne_eq, hiff2]

/-- Witness for C9: a list of three disconnected (not-ready) clients together
with a negative `retryJitterMs` is accepted without error. -/
theorem c9_constructor_validation_witness :
    constructOk (Redlock.construct [⟨false⟩, ⟨false⟩, ⟨false⟩]
      { driftFactor := none, retryDelayMs := none,
        retryJitterMs := some (-5), maxRetryAttempts := none }) = true := by
  obtain ⟨v, hv⟩ := (c9_constructor_validation [⟨false⟩, ⟨false⟩, ⟨false⟩]
      { driftFactor := none, retryDelayMs := none,
        retryJitterMs := some (-5), maxRetryAttempts := none }).1.mpr
    ⟨by decide, by simp, by simp, by simp⟩
  rw [hv]
  rfl

/-- C10: `expirationTime` allocates a fresh `Date` holding the stored
expiration instant; mutating the returned object leaves the stored instant —
and hence `isExpired` and `isValid` at every clock reading — unchanged. -/
theorem c10_expiration_time_fresh_copy (h : DateHeap) (inst : InstanceRef)
    (haddr : inst.expiresAtAddr < h.size) :
    ((RedlockInstance.expirationTime h inst).2.val (RedlockInstance.expirationTime h inst).1
        = h.val inst.expiresAtAddr)
    ∧ (RedlockInstance.expirationTime h inst).1 ≠ inst.expiresAtAddr
    ∧ ∀ v now released,
        RedlockInstance.isExpired
            (((RedlockInstance.expirationTime h inst).2).setTime
              (RedlockInstance.expirationTime h inst).1 v) inst now =
          RedlockInstance.isExpired h inst now
        ∧ RedlockInstance.isValid released
            (((RedlockInstance.expirationTime h inst).2).setTime
              (RedlockInstance.expirationTime h inst).1 v) inst now =
          RedlockInstance.isValid released h inst now := by
  have hne : h.size ≠ inst.expiresAtAddr := (Nat.ne_of_lt haddr).symm
  refine ⟨?_, ?_, ?_⟩
  · simp [RedlockInstance.expirationTime, DateHeap.alloc]
  · simpa [RedlockInstance.expirationTime, DateHeap.alloc] using hne
  · intro v now released
    have hval : (((RedlockInstance.expirationTime h inst).2).setTime
        (RedlockInstance.expirationTime h inst).1 v).val inst.expiresAtAddr =
        h.val inst.expiresAtAddr := by
      simp [RedlockInstance.expirationTime, DateHeap.alloc, DateHeap.setTime,
        (Nat.ne_of_lt haddr), hne.symm]
    constructor
    · simp [RedlockInstance.isExpired, hval]
    · simp [RedlockInstance.isValid, RedlockInstance.isExpired, hval]

/-- Witness for C10: a one-cell heap holding instant 500; after mutating the
copy to 99, `isExpired` at clock 1000 still reads the stored 500. -/
theorem c10_expiration_time_fresh_copy_witness :
    RedlockInstance.isExpired
        (((RedlockInstance.expirationTime ⟨1, fun _ => 500⟩ ⟨0⟩).2).setTime
          (RedlockInstance.expirationTime ⟨1, fun _ => 500⟩ ⟨0⟩).1 99) ⟨0⟩ 1000 =
      RedlockInstance.isExpired ⟨1, fun _ => 500⟩ ⟨0⟩ 1000 :=
  ((c10_expiration_time_fresh_copy ⟨1, fun _ => 500⟩ ⟨0⟩ (by decide)).2.2 99 1000 false).1

/-- C6 counterexample: on a freshly acquired handle whose manager-level
release fan-out reports no deletion (e.g. a single server whose key already
expired replies 0), the FIRST `release()` call returns `false`, so
"`H.release()` followed by `H.release()` returns true both times" fails. -/
theorem c6_first_release_can_return_false :
    (Redlock.mk 1 0 3).release (fun _ => .reply 0) "k" "t" =
        .ok (false, relEvents 1 ["k"] "t")
      ∧ inst0.isReleased = false
      ∧ (RedlockInstance.release (some false) inst0).1 = false := by
  exact ⟨rfl, by decide, by decide⟩

/-- C6 as amended: the released flag is monotonic under every handle
operation; a second `release()` returns `true`, leaves the state untouched
and performs no further server fan-out (so at most one fan-out happens across
both calls); `release` never raises — it returns the manager's fan-out result
and `false` when that fan-out throws; hence both calls return `true` whenever
the first fan-out reports at least one deletion. -/
theorem c6_release_idempotent_monotonic (ext : Nat → Option Bool) (s : InstState)
    (m1 m2 : Option Bool) :
    (∀ op : HandleOp, s.isReleased = true →
        (RedlockInstance.step ext op s).isReleased = true)
    ∧ (s.isReleased = true → RedlockInstance.release m1 s = (true, s))
    ∧ (s.isReleased = false →
        ((RedlockInstance.release m2 (RedlockInstance.release m1 s).2).1 = true
          ∧ (RedlockInstance.release m2 (RedlockInstance.release m1 s).2).2 =
              (RedlockInstance.release m1 s).2
          ∧ (RedlockInstance.release m1 s).2.isReleased = true
          ∧ (RedlockInstance.release m1 s).2.releaseFanouts = s.releaseFanouts + 1
          ∧ (RedlockInstance.release m2 (RedlockInstance.release m1 s).2).2.releaseFanouts =
              s.releaseFanouts + 1
          ∧ (m1 = some true → (RedlockInstance.release m1 s).1 = true)
          ∧ (m1 = none → (RedlockInstance.release m1 s).1 = false))) := by
  refine ⟨?_, ?_, ?_⟩
  · intro op hrel
    cases op with
    | releaseOp m =>
      simp only [RedlockInstance.step, RedlockInstance.release, hrel, if_true]
    | stopOp =>
      simp only [RedlockInstance.step, RedlockInstance.stopAutoExtension]
      cases s.extensionTimer <;> simpa
    | startOp th now fuel =>
      simp [RedlockInstance.step, RedlockInstance.startAutoExtension, hrel]
    | fireOp id now fuel =>
      simp only [RedlockInstance.step, RedlockInstance.timerFire]
      split
      · cases fuel with
        | zero =>
          simp [RedlockInstance.performExtension, hrel]
        | succ fuel' =>
          simp [RedlockInstance.performExtension, hrel]
      · exact hrel
    | extendOp m t now =>
      simp [RedlockInstance.step, RedlockInstance.extendManual, hrel]
  · intro hrel
    simp [RedlockInstance.release, hrel]
  · intro hrel
    have hrel1 : (RedlockInstance.release m1 s).2.isReleased = true := by
      cases m1 <;>
        simp [RedlockInstance.release, hrel, RedlockInstance.stopAutoExtension] <;>
          cases s.extensionTimer <;> simp
    have hsec : ∀ t : InstState, t.isReleased = true →
        RedlockInstance.release m2 t = (true, t) := by
      intro t ht
      simp [RedlockInstance.release, ht]
    have hsecond := hsec _ hrel1
    have hfan : (RedlockInstance.release m1 s).2.releaseFanouts = s.releaseFanouts + 1 := by
      cases m1 <;>
        simp [RedlockInstance.release, hrel, RedlockInstance.stopAutoExtension] <;>
          cases s.extensionTimer <;> simp
    refine ⟨by rw [hsecond], by rw [hsecond], hrel1, hfan, by rw [hsecond]; exact hfan, ?_, ?_⟩
    · intro hm1; subst hm1; simp [RedlockInstance.release, hrel]
    · intro hm1; subst hm1; simp [RedlockInstance.release, hrel]

/-- Witness for C6 (amended): on a fresh handle whose manager fan-out
succeeds, both calls return `true` and exactly one fan-out happened. -/
theorem c6_release_idempotent_monotonic_witness :
    (RedlockInstance.release (some true) inst0).1 = true
      ∧ (RedlockInstance.release (some true)
          (RedlockInstance.release (some true) inst0).2).1 = true
      ∧ (RedlockInstance.release (some true)
          (RedlockInstance.release (some true) inst0).2).2.releaseFanouts = 1 := by
  have h := (c6_release_idempotent_monotonic (fun _ => some true) inst0
      (some true) (some true)).2.2 (by decide)
  exact ⟨h.2.2.2.2.2.1 rfl, h.1, h.2.2.2.2.1⟩

/-- C7 (failing run): calling `startAutoExtension` twice while the first
renewal timeout is still pending arms a second timeout without cancelling the
first — two renewal timers are pending at once, and after `release()` the
leaked one is still armed, so a released handle retains an active timer. -/
theorem c7_timer_leak_on_double_start :
    ((RedlockInstance.step (fun _ => some true) (.startOp 1000 0 5)
        (RedlockInstance.step (fun _ => some true) (.startOp 1000 0 5) inst0)).pendingTimers
      = [0, 1])
    ∧ ((RedlockInstance.step (fun _ => some true) (.releaseOp (some true))
        (RedlockInstance.step (fun _ => some true) (.startOp 1000 0 5)
          (RedlockInstance.step (fun _ => some true) (.startOp 1000 0 5) inst0))).pendingTimers
      = [0])
    ∧ ((RedlockInstance.step (fun _ => some true) (.releaseOp (some true))
        (RedlockInstance.step (fun _ => some true) (.startOp 1000 0 5)
          (RedlockInstance.step (fun _ => some true) (.startOp 1000 0 5) inst0))).isReleased
      = true) := by
  refine ⟨by decide, by decide, by decide⟩

/-- Helper: when every attempt in reach of the remaining fuel is rejected by
the evaluator, the retry loop returns the absent handle and issues, per
attempt, one ACQUIRE fan-out followed by one cleanup RELEASE fan-out. -/
theorem acquireLoop_all_rejected (r : Redlock) (gen : Nat → String)
    (acqOut : Nat → Nat → ScriptOutcome) (elapsed : Nat → Int)
    (keys : List String) (ttlMs : Int) :
    ∀ fuel i,
      (∀ j, i ≤ j → j < i + fuel →
        (r.evaluateAcquisitionAttempt
          ⟨r.successCountAt acqOut j, ttlMs, elapsed j⟩).isSuccess = false) →
      r.acquireLoop gen acqOut elapsed keys ttlMs i fuel =
        (none, (List.range fuel).map (fun k =>
          ⟨i + k, gen (i + k),
            acqEvents r.nClients keys (gen (i + k)) ttlMs
              ++ relEvents r.nClients keys (gen (i + k))⟩)) := by
  intro fuel
  induction fuel with
  | zero => intro i _; rfl
  | succ fuel ih =>
    intro i h
    have h0 := h i (le_refl i) (by omega)
    rw [Redlock.acquireLoop]
    cases heval : r.evaluateAcquisitionAttempt
        ⟨r.successCountAt acqOut i, ttlMs, elapsed i⟩ with
    | success v =>
      rw [heval] at h0
      simp [AcquisitionEvaluation.isSuccess] at h0
    | failure msg =>
      have hrest := ih (i + 1) (fun j hj1 hj2 => h j (by omega) (by omega))
      simp only [heval, hrest]
      refine congrArg (fun l => ((none : Option (String × Int)), l)) ?_
      rw [List.range_succ_eq_map, List.map_cons, List.map_map]
      refine congrArg₂ List.cons (by simp) ?_
      refine List.map_congr_left ?_
      intro k _
      have harith : i + 1 + k = i + (k + 1) := by omega
      simp [Function.comp, harith]

/-- Helper: every attempt record of the retry loop carries the token the
generator produced for its attempt index, every dispatch within it uses that
token, and the attempt indices are the consecutive naturals starting at the
initial index. -/
theorem acquireLoop_token_discipline (r : Redlock) (gen : Nat → String)
    (acqOut : Nat → Nat → ScriptOutcome) (elapsed : Nat → Int)
    (keys : List String) (ttlMs : Int) :
    ∀ fuel i,
      (∀ rec ∈ (r.acquireLoop gen acqOut elapsed keys ttlMs i fuel).2,
        rec.token = gen rec.index
          ∧ (∀ ev ∈ rec.events, ev.token = gen rec.index))
      ∧ (r.acquireLoop gen acqOut elapsed keys ttlMs i fuel).2.map AttemptRec.index =
          List.range' i (r.acquireLoop gen acqOut elapsed keys ttlMs i fuel).2.length := by
  intro fuel
  induction fuel with
  | zero => intro i; exact ⟨by intro rec hrec; simp [Redlock.acquireLoop] at hrec, rfl⟩
  | succ fuel ih =>
    intro i
    rw [Redlock.acquireLoop]
    cases heval : r.evaluateAcquisitionAttempt
        ⟨r.successCountAt acqOut i, ttlMs, elapsed i⟩ with
    | success v =>
      refine ⟨?_, by simp [List.range']⟩
      intro rec hrec
      simp only [List.mem_singleton] at hrec
      subst hrec
      refine ⟨rfl, ?_⟩
      intro ev hev
      simp only [acqEvents, List.mem_map] at hev
      obtain ⟨c, _, rfl⟩ := hev
      rfl
    | failure msg =>
      obtain ⟨ih1, ih2⟩ := ih (i + 1)
      constructor
      · intro rec hrec
        simp only [List.mem_cons] at hrec
        rcases hrec with rfl | hrec
        · refine ⟨rfl, ?_⟩
          intro ev hev
          simp only [acqEvents, relEvents, List.mem_append, List.mem_map] at hev
          rcases hev with ⟨c, _, rfl⟩ | ⟨c, _, rfl⟩ <;> rfl
        · exact ih1 rec hrec
      · simp only [List.map_cons, List.length_cons, ih2, List.range'_succ]

/-- C4: for a valid key and positive TTL, when the evaluator rejects every
attempt `0 .. maxRetryAttempts`, `acquire` returns the absent handle (and
does not throw), having issued after each rejected attempt a cleanup RELEASE
fan-out to all `N` servers; invalid parameters throw `InvalidParameter`. -/
theorem c4_acquire_exhaustion (r : Redlock) (gen : Nat → String)
    (acqOut : Nat → Nat → ScriptOutcome) (elapsed : Nat → Int)
    (key : String) (ttlMs : Int) :
    (validKeyB key = true → 0 < ttlMs →
      (∀ j, j ≤ r.maxRetryAttempts →
        (r.evaluateAcquisitionAttempt
          ⟨r.successCountAt acqOut j, ttlMs, elapsed j⟩).isSuccess = false) →
      r.acquire gen acqOut elapsed key ttlMs =
        .ok (none, (List.range (r.maxRetryAttempts + 1)).map (fun j =>
          ⟨j, gen j, acqEvents r.nClients [key] (gen j) ttlMs
            ++ relEvents r.nClients [key] (gen j)⟩)))
    ∧ (validKeyB key = false →
        r.acquire gen acqOut elapsed key ttlMs =
          .error (.invalidParameter "key" "non-empty string"))
    ∧ (validKeyB key = true → ttlMs ≤ 0 →
        r.acquire gen acqOut elapsed key ttlMs =
          .error (.invalidParameter "ttlMs" "positive integer")) := by
  refine ⟨?_, ?_, ?_⟩
  · intro hk httl hrej
    have hloop := acquireLoop_all_rejected r gen acqOut elapsed [key] ttlMs
      (r.maxRetryAttempts + 1) 0 (fun j _ hj2 => hrej j (by omega))
    have hvt : validTtlB ttlMs = true := by simp [validTtlB, httl]
    simp only [Redlock.acquire, hk, hvt, Bool.not_true, Bool.false_eq_true, if_false,
      ite_false, hloop]
    refine congrArg (fun l => Except.ok ((none : Option (String × Int)), l)) ?_
    refine List.map_congr_left ?_
    intro k _
    simp
  · intro hk
    simp [Redlock.acquire, hk]
  · intro hk httl
    have hvt : validTtlB ttlMs = false := by simp [validTtlB]; omega
    simp [Redlock.acquire, hk, hvt]

/-- Witness for C4: one server always replying 0 and no retries — `acquire`
returns the absent handle after one acquire fan-out and one cleanup release
fan-out. -/
theorem c4_acquire_exhaustion_witness :
    (Redlock.mk 1 0 0).acquire genReplicate (fun _ _ => .reply 0) (fun _ => 0) "k" 100 =
      .ok (none, [⟨0, genReplicate 0,
        acqEvents 1 ["k"] (genReplicate 0) 100 ++ relEvents 1 ["k"] (genReplicate 0)⟩]) := by
  have h := (c4_acquire_exhaustion (Redlock.mk 1 0 0) genReplicate (fun _ _ => .reply 0)
    (fun _ => 0) "k" 100).1 (by decide) (by decide) ?_
  · rw [h]
    simp [List.range_succ]
  · intro j hj
    have hj0 : j = 0 := Nat.le_zero.mp hj
    subst hj0
    decide

/-- Helper: the concrete generator `genReplicate` never repeats a token. -/
theorem genReplicate_inj : ∀ a b : Nat, genReplicate a = genReplicate b → a = b := by
  intro a b h
  have hd : List.replicate a 'a' = List.replicate b 'a' := congrArg String.data h
  have hl := congrArg List.length hd
  simpa using hl

/-- C5: whenever `acquire` returns (with any outcome), every attempt record
used the token the generator produced for exactly its attempt index — both
for its ACQUIRE fan-out and its cleanup RELEASE fan-out — the attempt indices
are `0, 1, 2, …` (one fresh generator call per iteration), and if the
generator never repeats then tokens of distinct attempts are distinct. -/
theorem c5_fresh_token_per_attempt (r : Redlock) (gen : Nat → String)
    (acqOut : Nat → Nat → ScriptOutcome) (elapsed : Nat → Int)
    (key : String) (ttlMs : Int) (result : Option (String × Int)) (recs : List AttemptRec)
    (h : r.acquire gen acqOut elapsed key ttlMs = .ok (result, recs)) :
    (∀ rec ∈ recs, rec.token = gen rec.index
      ∧ ∀ ev ∈ rec.events, ev.token = gen rec.index)
    ∧ recs.map AttemptRec.index = List.range' 0 recs.length
    ∧ ((∀ a b : Nat, gen a = gen b → a = b) →
        ∀ r1 ∈ recs, ∀ r2 ∈ recs, r1.index ≠ r2.index → r1.token ≠ r2.token) := by
  have hrecs : recs = (r.acquireLoop gen acqOut elapsed [key] ttlMs 0
      (r.maxRetryAttempts + 1)).2 := by
    by_cases hk : validKeyB key <;> by_cases ht : validTtlB ttlMs <;>
      simp [Redlock.acquire, hk, ht] at h
    exact (congrArg Prod.snd h.symm)
  obtain ⟨h1, h2⟩ := acquireLoop_token_discipline r gen acqOut elapsed [key] ttlMs
    (r.maxRetryAttempts + 1) 0
  refine ⟨by rw [hrecs]; exact h1, by rw [hrecs]; exact h2, ?_⟩
  intro hinj r1 hr1 r2 hr2 hne
  have t1 := (h1 r1 (by rw [hrecs] at hr1; exact hr1)).1
  have t2 := (h1 r2 (by rw [hrecs] at hr2; exact hr2)).1
  rw [t1, t2]
  intro hcontra
  exact hne (hinj _ _ hcontra)

/-- Witness for C5: a two-attempt run (one server always replying 0, one
retry) whose attempts carry the generator's tokens for indices 0 and 1, and
those tokens are distinct. -/
theorem c5_fresh_token_per_attempt_witness :
    (Redlock.mk 1 0 1).acquire genReplicate (fun _ _ => .reply 0) (fun _ => 0) "k" 100 =
      .ok (none,
        [⟨0, genReplicate 0,
            acqEvents 1 ["k"] (genReplicate 0) 100 ++ relEvents 1 ["k"] (genReplicate 0)⟩,
         ⟨1, genReplicate 1,
            acqEvents 1 ["k"] (genReplicate 1) 100 ++ relEvents 1 ["k"] (genReplicate 1)⟩])
    ∧ genReplicate 0 ≠ genReplicate 1 := by
  have hloop := acquireLoop_all_rejected (Redlock.mk 1 0 1) genReplicate
    (fun _ _ => .reply 0) (fun _ => 0) ["k"] 100 2 0 ?_
  · have hrun : (Redlock.mk 1 0 1).acquire genReplicate (fun _ _ => .reply 0)
        (fun _ => 0) "k" 100 =
        .ok (none,
          [⟨0, genReplicate 0,
              acqEvents 1 ["k"] (genReplicate 0) 100 ++ relEvents 1 ["k"] (genReplicate 0)⟩,
           ⟨1, genReplicate 1,
              acqEvents 1 ["k"] (genReplicate 1) 100 ++ relEvents 1 ["k"] (genReplicate 1)⟩]) := by
      simp only [Redlock.acquire, (by decide : validKeyB "k" = true),
        (by decide : validTtlB (100 : Int) = true), Bool.not_true, Bool.false_eq_true,
        if_false, ite_false]
      rw [show ((Redlock.mk 1 0 1).maxRetryAttempts + 1) = 2 from rfl, hloop]
      simp [List.range_succ]
    refine ⟨hrun, ?_⟩
    have h5 := c5_fresh_token_per_attempt (Redlock.mk 1 0 1) genReplicate
      (fun _ _ => .reply 0) (fun _ => 0) "k" 100 none _ hrun
    have := h5.2.2 genReplicate_inj
      ⟨0, genReplicate 0,
        acqEvents 1 ["k"] (genReplicate 0) 100 ++ relEvents 1 ["k"] (genReplicate 0)⟩
      (by simp)
      ⟨1, genReplicate 1,
        acqEvents 1 ["k"] (genReplicate 1) 100 ++ relEvents 1 ["k"] (genReplicate 1)⟩
      (by simp)
      (by decide)
    exact this
  · intro j h1 h2
    have : j = 0 ∨ j = 1 := by omega
    rcases this with rfl | rfl <;> decide

/-- Helper: the code-point lexicographic comparison is total. -/
theorem charListLe_total : ∀ l1 l2 : List Char,
    charListLe l1 l2 = true ∨ charListLe l2 l1 = true := by
  intro l1
  induction l1 with
  | nil => intro l2; left; rfl
  | cons a as ih =>
    intro l2
    cases l2 with
    | nil => right; rfl
    | cons b bs =>
      by_cases hab : a.toNat < b.toNat
      · left; simp [charListLe, hab]
      · by_cases hba : b.toNat < a.toNat
        · right; simp [charListLe, hba]
        · rcases ih bs with h | h
          · left; simp [charListLe, hab, hba, h]
          · right; simp [charListLe, hab, hba, h]

/-- Helper: the code-point lexicographic comparison is transitive. -/
theorem charListLe_trans : ∀ l1 l2 l3 : List Char,
    charListLe l1 l2 = true → charListLe l2 l3 = true → charListLe l1 l3 = true := by
  intro l1
  induction l1 with
  | nil => intro l2 l3 _ _; rfl
  | cons a as ih =>
    intro l2 l3 h12 h23
    cases l2 with
    | nil => exact absurd h12 (by simp [charListLe])
    | cons b bs =>
      cases l3 with
      | nil => exact absurd h23 (by simp [charListLe])
      | cons c cs =>
        simp only [charListLe] at h12 h23 ⊢
        by_cases hab : a.toNat < b.toNat
        · by_cases hbc : b.toNat < c.toNat
          · have hac : a.toNat < c.toNat := Nat.lt_trans hab hbc
            simp [hac]
          · by_cases hcb : c.toNat < b.toNat
            · rw [if_neg hbc, if_pos hcb] at h23
              exact absurd h23 (by simp)
            · have hac : a.toNat < c.toNat := by omega
              simp [hac]
        · by_cases hba : b.toNat < a.toNat
          · rw [if_neg hab, if_pos hba] at h12
            exact absurd h12 (by simp)
          · rw [if_neg hab, if_neg hba] at h12
            by_cases hbc : b.toNat < c.toNat
            · have hac : a.toNat < c.toNat := by omega
              simp [hac]
            · by_cases hcb : c.toNat < b.toNat
              · rw [if_neg hbc, if_pos hcb] at h23
                exact absurd h23 (by simp)
              · rw [if_neg hbc, if_neg hcb] at h23
                have hac : ¬a.toNat < c.toNat := by omega
                have hca : ¬c.toNat < a.toNat := by omega
                rw [if_neg hac, if_neg hca]
                exact ih bs cs h12 h23

/-- Helper: `keyLe` is total on keys. -/
theorem keyLe_total : ∀ a b : String, keyLe a b = true ∨ keyLe b a = true := by
  intro a b
  exact charListLe_total a.data b.data

/-- Helper: `keyLe` is transitive on keys. -/
theorem keyLe_trans : ∀ a b c : String,
    keyLe a b = true → keyLe b c = true → keyLe a c = true := by
  intro a b c
  exact charListLe_trans a.data b.data c.data

/-- Helper: membership in the kept component of the deduplication pass. -/
theorem dedupKeys_kept_mem : ∀ (l seen : List String) (k : String),
    k ∈ (dedupKeys seen l).1 ↔ (k ∈ l ∧ k ∉ seen) := by
  intro l
  induction l with
  | nil => intro seen k; simp [dedupKeys]
  | cons a as ih =>
    intro seen k
    by_cases ha : seen.contains a
    · have hamem : a ∈ seen := by simpa using ha
      simp only [dedupKeys, ha, if_true]
      rw [ih]
      constructor
      · rintro ⟨hk, hns⟩
        exact ⟨List.mem_cons_of_mem _ hk, hns⟩
      · rintro ⟨hk, hns⟩
        rcases List.mem_cons.mp hk with rfl | hk
        · exact absurd hamem hns
        · exact ⟨hk, hns⟩
    · have hamem : a ∉ seen := by simpa using ha
      simp only [dedupKeys, ha, if_false, Bool.false_eq_true]
      rw [List.mem_cons, ih]
      constructor
      · rintro (rfl | ⟨hk, hns⟩)
        · exact ⟨List.mem_cons_self _ _, hamem⟩
        · refine ⟨List.mem_cons_of_mem _ hk, ?_⟩
          intro hcontra
          exact hns (List.mem_cons_of_mem _ hcontra)
      · rintro ⟨hk, hns⟩
        by_cases hka : k = a
        · exact Or.inl hka
        · refine Or.inr ⟨?_, ?_⟩
          · rcases List.mem_cons.mp hk with h | h
            · exact absurd h hka
            · exact h
          · intro hcontra
            rcases List.mem_cons.mp hcontra with h | h
            · exact hka h
            · exact hns h

/-- Helper: the kept component of the deduplication pass has no duplicates. -/
theorem dedupKeys_kept_nodup : ∀ (l seen : List String), ((dedupKeys seen l).1).Nodup := by
  intro l
  induction l with
  | nil => intro seen; simp [dedupKeys]
  | cons a as ih =>
    intro seen
    by_cases ha : seen.contains a
    · simp only [dedupKeys, ha, if_true]
      exact ih seen
    · simp only [dedupKeys, ha, if_false, Bool.false_eq_true, List.nodup_cons]
      refine ⟨?_, ih (a :: seen)⟩
      intro hcontra
      exact ((dedupKeys_kept_mem as (a :: seen) a).mp hcontra).2 (List.mem_cons_self _ _)

/-- Helper: the removed component of the deduplication pass collects exactly
the occurrences of keys already seen — for an empty initial `seen`, exactly
the keys occurring at least twice. -/
theorem dedupKeys_removed_mem : ∀ (l seen : List String) (k : String),
    k ∈ (dedupKeys seen l).2 ↔ (k ∈ l ∧ (k ∈ seen ∨ 2 ≤ l.count k)) := by
  intro l
  induction l with
  | nil => intro seen k; simp [dedupKeys]
  | cons a as ih =>
    intro seen k
    by_cases hka : k = a
    · subst hka
      have hcount : (k :: as).count k = as.count k + 1 := List.count_cons_self k as
      by_cases ha : seen.contains k
      · have hamem : k ∈ seen := by simpa using ha
        simp only [dedupKeys, ha, if_true, List.mem_cons]
        simp [hamem]
      · have hamem : k ∉ seen := by simpa using ha
        simp only [dedupKeys, ha, if_false, Bool.false_eq_true]
        rw [ih]
        constructor
        · rintro ⟨hk, _⟩
          refine ⟨List.mem_cons_self _ _, Or.inr ?_⟩
          have hpos : 0 < as.count k := List.count_pos_iff.mpr hk
          omega
        · rintro ⟨_, hseen | hcnt⟩
          · exact absurd hseen hamem
          · have hpos : 0 < as.count k := by omega
            exact ⟨List.count_pos_iff.mp hpos, Or.inl (List.mem_cons_self _ _)⟩
    · have hcount : (a :: as).count k = as.count k := by
        rw [List.count_cons]
        simp [hka, Ne.symm hka]
      by_cases ha : seen.contains a
      · simp only [dedupKeys, ha, if_true, List.mem_cons]
        rw [ih]
        simp [hka, hcount]
      · simp only [dedupKeys, ha, if_false, Bool.false_eq_true]
        rw [ih]
        simp only [List.mem_cons, hka, false_or, hcount]

/-- Helper: every dispatch the retry loop issues carries the loop's KEYS
vector unchanged. -/
theorem acquireLoop_events_keys (r : Redlock) (gen : Nat → String)
    (acqOut : Nat → Nat → ScriptOutcome) (elapsed : Nat → Int)
    (keys : List String) (ttlMs : Int) :
    ∀ fuel i, ∀ rec ∈ (r.acquireLoop gen acqOut elapsed keys ttlMs i fuel).2,
      ∀ ev ∈ rec.events, ev.keys = keys := by
  intro fuel
  induction fuel with
  | zero => intro i rec hrec; simp [Redlock.acquireLoop] at hrec
  | succ fuel ih =>
    intro i rec hrec
    rw [Redlock.acquireLoop] at hrec
    cases heval : r.evaluateAcquisitionAttempt
        ⟨r.successCountAt acqOut i, ttlMs, elapsed i⟩ with
    | success v =>
      rw [heval] at hrec
      simp only [List.mem_singleton] at hrec
      subst hrec
      intro ev hev
      simp only [acqEvents, List.mem_map] at hev
      obtain ⟨c, _, rfl⟩ := hev
      rfl
    | failure msg =>
      rw [heval] at hrec
      simp only [List.mem_cons] at hrec
      rcases hrec with rfl | hrec
      · intro ev hev
        simp only [acqEvents, relEvents, List.mem_append, List.mem_map] at hev
        rcases hev with ⟨c, _, rfl⟩ | ⟨c, _, rfl⟩ <;> rfl
      · exact ih (i + 1) rec hrec

/-- C2 (spec-modelled): for an accepted key list the multi-key acquire
returns normally; a successful handle exposes `resource_keys` equal to the
canonicalized vector; every per-server script invocation receives that entire
canonicalized vector as KEYS; the warning payload is exactly the removed
duplicate keys; and the canonicalized vector is sorted (lexicographic
ascending), duplicate-free, and has the same members as the input — i.e. it
is `sort(dedup(L))`. -/
theorem c2_canonicalization (r : Redlock) (gen : Nat → String)
    (acqOut : Nat → Nat → ScriptOutcome) (elapsed : Nat → Int)
    (keys : List String) (ttlMs : Int)
    (hne : keys ≠ []) (hval : ∀ k ∈ keys, validKeyB k = true) (httl : 0 < ttlMs) :
    (∃ out, r.acquireMulti gen acqOut elapsed keys ttlMs = .ok out)
    ∧ (∀ inst recs removed,
        r.acquireMulti gen acqOut elapsed keys ttlMs = .ok (some inst, recs, removed) →
        inst.resourceKeys = (canonicalizeKeys keys).1)
    ∧ (∀ res recs removed,
        r.acquireMulti gen acqOut elapsed keys ttlMs = .ok (res, recs, removed) →
        removed = (canonicalizeKeys keys).2
          ∧ ∀ rec ∈ recs, ∀ ev ∈ rec.events, ev.keys = (canonicalizeKeys keys).1)
    ∧ List.Sorted (fun a b => keyLe a b = true) (canonicalizeKeys keys).1
    ∧ ((canonicalizeKeys keys).1).Nodup
    ∧ (∀ k, k ∈ (canonicalizeKeys keys).1 ↔ k ∈ keys)
    ∧ (∀ k, k ∈ (canonicalizeKeys keys).2 ↔ 2 ≤ keys.count k) := by
  have hempty : keys.isEmpty = false := by
    cases keys with
    | nil => exact absurd rfl hne
    | cons a as => rfl
  have hany : (keys.any (fun k => !validKeyB k)) = false := by
    rw [List.any_eq_false]
    intro k hk
    simp [hval k hk]
  have hvt : validTtlB ttlMs = true := by simp [validTtlB, httl]
  have hrun : r.acquireMulti gen acqOut elapsed keys ttlMs =
      .ok (((r.acquireLoop gen acqOut elapsed (canonicalizeKeys keys).1 ttlMs 0
              (r.maxRetryAttempts + 1)).1.map
            (fun t => ⟨(canonicalizeKeys keys).1, t.1, t.2⟩)),
          (r.acquireLoop gen acqOut elapsed (canonicalizeKeys keys).1 ttlMs 0
              (r.maxRetryAttempts + 1)).2,
          (canonicalizeKeys keys).2) := by
    simp [Redlock.acquireMulti, hempty, hany, hvt]
  haveI : IsTotal String (fun a b => keyLe a b = true) := ⟨keyLe_total⟩
  haveI : IsTrans String (fun a b => keyLe a b = true) := ⟨keyLe_trans⟩
  have hperm : (canonicalizeKeys keys).1.Perm (dedupKeys [] keys).1 :=
    List.perm_insertionSort _ _
  refine ⟨⟨_, hrun⟩, ?_, ?_, ?_, ?_, ?_, ?_⟩
  · intro inst recs removed h
    rw [hrun] at h
    simp only [Except.ok.injEq, Prod.mk.injEq] at h
    obtain ⟨h1, _, _⟩ := h
    cases hopt : (r.acquireLoop gen acqOut elapsed (canonicalizeKeys keys).1 ttlMs 0
        (r.maxRetryAttempts + 1)).1 with
    | none => rw [hopt] at h1; simp at h1
    | some t =>
      rw [hopt] at h1
      rw [Option.map_some'] at h1
      obtain rfl : (⟨(canonicalizeKeys keys).1, t.1, t.2⟩ : RedlockInstanceData) = inst := by
        simpa using h1
      rfl
  · intro res recs removed h
    rw [hrun] at h
    simp only [Except.ok.injEq, Prod.mk.injEq] at h
    obtain ⟨_, h2, h3⟩ := h
    subst h2
    subst h3
    exact ⟨rfl, acquireLoop_events_keys r gen acqOut elapsed _ ttlMs _ 0⟩
  · exact List.sorted_insertionSort _ _
  · exact hperm.nodup_iff.mpr (dedupKeys_kept_nodup keys [])
  · intro k
    rw [hperm.mem_iff, dedupKeys_kept_mem]
    simp
  · intro k
    rw [show (canonicalizeKeys keys).2 = (dedupKeys [] keys).2 from rfl,
      dedupKeys_removed_mem]
    constructor
    · rintro ⟨_, hc | hc⟩
      · simp at hc
      · exact hc
    · intro hc
      have : 0 < keys.count k := by omega
      exact ⟨List.count_pos_iff.mp this, Or.inr hc⟩

/-- Witness for C2: the spec's own example — input
`["zebra", "alpha", "beta", "alpha"]` canonicalizes to
`["alpha", "beta", "zebra"]` with warning payload `["alpha"]`, and membership
in the canonical vector matches the input. -/
theorem c2_canonicalization_witness :
    (canonicalizeKeys ["zebra", "alpha", "beta", "alpha"]).1 = ["alpha", "beta", "zebra"]
    ∧ (canonicalizeKeys ["zebra", "alpha", "beta", "alpha"]).2 = ["alpha"]
    ∧ ("alpha" ∈ (canonicalizeKeys ["zebra", "alpha", "beta", "alpha"]).1 ↔
        "alpha" ∈ ["zebra", "alpha", "beta", "alpha"]) := by
  refine ⟨by decide, by decide, ?_⟩
  exact (c2_canonicalization (Redlock.mk 1 0 0) genReplicate (fun _ _ => .reply 0)
    (fun _ => 0) ["zebra", "alpha", "beta", "alpha"] 100
    (by decide) (by decide) (by decide)).2.2.2.2.2.1 "alpha"
